import Mathlib

/-!
A verification development for the `s2j` repository: an incremental
Oracle-stored-procedure → Java transformation pipeline driven by a file
dependency graph (`main.py`) over a memoizing LLM wrapper (`ai.py`).

The Python source is shallowly embedded: Python dicts become association
lists with insert-overwrite semantics, Python sets become duplicate-free
lists with membership-guarded append, and the external LLM service becomes
an oracle function parameter.  The incremental executor
(`Processor.process_file` / `Processor.process`) is embedded as a
fuel-indexed state-transition function that records an explicit event
trace (file reads, transformation-service calls, processed-set updates,
progress saves); Python's unbounded recursion corresponds to fuel
exhaustion returning `none`.
-/

namespace S2J

/-! ## Generic dictionary / set primitives

`dict*` model Python `dict` (insert replaces the value at an existing key,
preserving its position; lookup scans entries).  `sadd` models Python
`set.add` on a duplicate-free list representation. -/

def dictLookup {α : Type} (k : String) : List (String × α) → Option α
  | [] => none
  | (k₀, v) :: rest => if k₀ = k then some v else dictLookup k rest

def dictInsert {α : Type} (k : String) (v : α) : List (String × α) → List (String × α)
  | [] => [(k, v)]
  | (k₀, v₀) :: rest => if k₀ = k then (k₀, v) :: rest else (k₀, v₀) :: dictInsert k v rest

def sadd (x : String) (s : List String) : List String :=
  if x ∈ s then s else s ++ [x]

/-! ## String helpers from the source

`basename` embeds `os.path.basename` (text after the last `/`), used at
`main.py:102,107`.  `depPackage` embeds `dep.split('.')[0]`
(`main.py:111`).  `pathJoin` embeds `os.path.join` for the two-argument
POSIX case (`main.py:150`).  They are written over `List Char` so that
they reduce inside the kernel. -/

def splitOnCharAux (c : Char) : List Char → List Char → List (List Char)
  | [], cur => [cur.reverse]
  | x :: xs, cur =>
    if x = c then cur.reverse :: splitOnCharAux c xs []
    else splitOnCharAux c xs (x :: cur)

def basename (p : String) : String :=
  ⟨(splitOnCharAux '/' p.data []).getLastD []⟩

def depPackage (dep : String) : String :=
  ⟨(splitOnCharAux '.' dep.data []).headD []⟩

def strStartsWith (s pre : String) : Bool :=
  pre.data.isPrefixOf s.data

def strEndsWith (s suf : String) : Bool :=
  suf.data.reverse.isPrefixOf s.data.reverse

def pathJoin (a b : String) : String :=
  if strStartsWith b "/" then b
  else if a = "" || strEndsWith a "/" then a ++ b
  else a ++ "/" ++ b

/-! ## Dependency graph builder (`Processor.build_callgraph`, main.py:84-120)

A discovered unit is a pair of its scanned path and the reference-extraction
result (`parse_refs`) for its contents: the `deps` list of
`"package.symbol"` strings and the `package_name` list of declared
packages.  The extraction itself is an external-service call and enters the
embedding only through this result. -/

structure Refs where
  deps : List String
  package_name : List String
deriving DecidableEq, Repr

/-- The `package_2_file` map (main.py:98-103): for each scanned file in
order, for each declared package, map the package to the file's basename;
a later declaration of the same package silently overwrites an earlier
one. -/
def package2file (files : List (String × Refs)) : List (String × String) :=
  files.foldl
    (fun m fr => fr.2.package_name.foldl (fun m₀ pkg => dictInsert pkg (basename fr.1) m₀) m)
    []

/-- The per-file edge set construction (main.py:108-115): resolve each
dep's leading package through `package_2_file`; drop unresolvable refs;
drop self-edges; accumulate with set semantics. -/
def resolveDeps (p2f : List (String × String)) (filename : String) (deps : List String) :
    List String :=
  deps.foldl
    (fun acc dep =>
      match dictLookup (depPackage dep) p2f with
      | some depFile => if depFile = filename then acc else sadd depFile acc
      | none => acc)
    []

/-- `Processor.build_callgraph` (main.py:84-120): the graph is a dict from
file basename to its list of dependency basenames. -/
def build_callgraph (files : List (String × Refs)) : List (String × List String) :=
  let p2f := package2file files
  files.foldl
    (fun g fr => dictInsert (basename fr.1) (resolveDeps p2f (basename fr.1) fr.2.deps) g)
    []

/-- Written from the spec's description of package-map construction (§4.3:
"if two units declare the same package name, the later write silently
wins"): the declaring unit recorded for `pkg` is the basename of the
last scanned file declaring `pkg`.  Used to compare the dict fold of
`package2file` against the spec's words. -/
def lastDeclaring : List (String × Refs) → String → Option String
  | [], _ => none
  | fr :: rest, pkg =>
    match lastDeclaring rest pkg with
    | some v => some v
    | none => if pkg ∈ fr.2.package_name then some (basename fr.1) else none

/-! ## Incremental executor (`Processor.process_file` / `Processor.process`,
main.py:143-166)

The executor mutates a `ProcState` (the in-memory processed set, symbol
set and an observation trace) and is parameterised by:
  - `wd` — the working directory (`self.working_dir`),
  - `g` — the dependency graph dict (`self.file_dep_graph`),
  - `readF` — the filesystem (path ↦ contents, for `open(...).read()`),
  - `gen` — `generate_java_code` (main.py:52-58), the transformation
    service: source text and current symbol set ↦ generated code plus new
    symbol mappings.

Each event in the trace records one externally visible step:
`Event.readFile` the `open` at main.py:150, `Event.transform` the
service call at main.py:152, `Event.markProcessed` the
`processed_files.add` at main.py:161, `Event.save` the `save_progress()`
at main.py:162, and `Event.skip` the early return at main.py:144-146.
Fuel bounds the recursion depth; Python's unguarded recursion on a cyclic
graph never completes, which the embedding renders as `none`. -/

/-- One entry of the `symbols` list returned by `generate_java_code`. -/
structure Sym where
  oracle : String
  java : String
deriving DecidableEq, Repr

/-- The key interned into the global symbol set (main.py:159). -/
def symKey (s : Sym) : String :=
  s.oracle ++ " -> " ++ s.java

inductive Event where
  | skip (f : String)
  | readFile (path : String)
  | transform (f : String)
  | markProcessed (f : String)
  | save
deriving DecidableEq, Repr

structure ProcState where
  processed : List String
  symbols : List String
  trace : List Event
deriving DecidableEq, Repr

/-- Sequencing of `process_file` calls over a list of unit names: the
`for dep in ...` loop at main.py:147-148 and the `for file in ...` loop
at main.py:165-166. -/
def processList (step : ProcState → String → Option ProcState) :
    ProcState → List String → Option ProcState
  | st, [] => some st
  | st, f :: rest =>
    match step st f with
    | none => none
    | some st₁ => processList step st₁ rest

/-- `Processor.process_file` (main.py:143-162), fuel-indexed. -/
def process_file (wd : String) (g : List (String × List String))
    (readF : String → String) (gen : String → List String → String × List Sym) :
    Nat → ProcState → String → Option ProcState
  | 0, _, _ => none
  | fuel + 1, st, f =>
    if f ∈ st.processed then
      some { st with trace := st.trace ++ [Event.skip f] }
    else
      match processList (process_file wd g readF gen fuel) st ((dictLookup f g).getD []) with
      | none => none
      | some st₁ =>
        let path := pathJoin wd f
        let res := gen (readF path) st₁.symbols
        some { processed := sadd f st₁.processed,
               symbols := res.2.foldl (fun acc s => sadd (symKey s) acc) st₁.symbols,
               trace := st₁.trace ++
                 [Event.readFile path, Event.transform f, Event.markProcessed f, Event.save] }

/-- `Processor.process` (main.py:164-166): call `process_file` on every
key of the graph dict in insertion order. -/
def process (wd : String) (g : List (String × List String))
    (readF : String → String) (gen : String → List String → String × List Sym)
    (fuel : Nat) (st : ProcState) : Option ProcState :=
  processList (process_file wd g readF gen fuel) st (g.map Prod.fst)

/-! ## Trace predicates

`runProcessed` replays the processed-set updates a trace records;
`traceOK` checks the dependency-order invariant along a trace: whenever a
transformation step for `f` begins, every dependency of `f` in the graph
is already in the processed set at that point. -/

def runProcessed : List String → List Event → List String
  | done, [] => done
  | done, Event.markProcessed f :: rest => runProcessed (sadd f done) rest
  | done, _ :: rest => runProcessed done rest

def traceOK (g : List (String × List String)) : List String → List Event → Bool
  | _, [] => true
  | done, Event.transform f :: rest =>
    ((dictLookup f g).getD []).all (fun d => decide (d ∈ done)) && traceOK g done rest
  | done, Event.markProcessed f :: rest => traceOK g (sadd f done) rest
  | done, _ :: rest => traceOK g done rest

/-! ## Memoizing LLM wrapper (`ai.py`)

A chat message is either a plain string or a flat string-valued JSON
object (the only shapes `LLM.ask` handles at ai.py:51-55).
`generate_cache_key` embeds `LLM._generate_cache_key` (ai.py:16-24) up to
the final `hashlib.md5(...).hexdigest()`: it produces the exact
`key_data` byte string that is hashed.  Since md5 is a fixed function,
equal `key_data` gives equal digests; distinct `key_data` gives distinct
digests barring an md5 collision, which is outside this embedding. -/

inductive Msg where
  | str (s : String)
  | obj (fields : List (String × String))
deriving DecidableEq, Repr

def hexDigit (n : Nat) : Char :=
  if n < 10 then Char.ofNat (48 + n) else Char.ofNat (87 + n)

/-- Four lowercase hex digits, as in Python's `\uXXXX` escapes. -/
def hex4 (n : Nat) : String :=
  String.mk [hexDigit (n / 4096 % 16), hexDigit (n / 256 % 16),
             hexDigit (n / 16 % 16), hexDigit (n % 16)]

/-- One character of Python's `json.dumps` default (`ensure_ascii=True`)
string escaping. -/
def escapeChar (c : Char) : String :=
  if c = '"' then "\\\""
  else if c = '\\' then "\\\\"
  else if c = '\n' then "\\n"
  else if c = '\r' then "\\r"
  else if c = '\t' then "\\t"
  else if c = '\x08' then "\\b"
  else if c = '\x0c' then "\\f"
  else if c.toNat < 0x20 ∨ (0x7f ≤ c.toNat ∧ c.toNat ≤ 0xffff) then
    "\\u" ++ hex4 c.toNat
  else if 0xffff < c.toNat then
    let v := c.toNat - 0x10000
    "\\u" ++ hex4 (0xd800 + v / 0x400) ++ "\\u" ++ hex4 (0xdc00 + v % 0x400)
  else String.singleton c

def jsonEscape (s : String) : String :=
  String.join (s.data.map escapeChar)

def dumpStr (s : String) : String :=
  "\"" ++ jsonEscape s ++ "\""

/-- `sort_keys=True` applied to one message object's items: Python's
`sorted` on the items compares keys first (dict keys are unique, so the
values never take part in the comparison). -/
def sortByKey (l : List (String × String)) : List (String × String) :=
  List.insertionSort (fun a b => a.1 ≤ b.1) l

def dumpMsg : Msg → String
  | Msg.str s => dumpStr s
  | Msg.obj fields =>
    "\x7b" ++
      String.intercalate ", "
        ((sortByKey fields).map (fun kv => dumpStr kv.1 ++ ": " ++ dumpStr kv.2)) ++
    "\x7d"

def dumpHistory (ms : List Msg) : String :=
  "[" ++ String.intercalate ", " (ms.map dumpMsg) ++ "]"

/-- `LLM._generate_cache_key` (ai.py:16-24) up to the md5 digest:
`json.dumps({"chat_history": .., "model": .., "max_tokens": ..,
"json_mode": ..}, sort_keys=True)`.  `sort_keys` puts these four fixed
keys in the order chat_history, json_mode, max_tokens, model, which is
written out directly here; the objects inside `chat_history` are sorted
generically by `dumpMsg`. -/
def generate_cache_key (chat_history : List Msg) (model : String) (max_tokens : Nat)
    (json_mode : Bool) : String :=
  "\x7b\"chat_history\": " ++ dumpHistory chat_history ++
  ", \"json_mode\": " ++ (if json_mode then "true" else "false") ++
  ", \"max_tokens\": " ++ toString max_tokens ++
  ", \"model\": " ++ dumpStr model ++ "\x7d"

/-- `LLM._load_from_cache` (ai.py:26-32): the cache directory as a dict
from key to stored blob; `none` is a missing cache file. -/
def load_from_cache (cache_key : String) (cache : List (String × String)) : Option String :=
  dictLookup cache_key cache

/-- `LLM._save_to_cache` (ai.py:34-39). -/
def save_to_cache (cache_key response : String) (cache : List (String × String)) :
    List (String × String) :=
  dictInsert cache_key response cache

/-- The role normalization at ai.py:51-55: a bare string becomes a user
message; dict messages pass through unchanged. -/
def normalizeMsg : Msg → Msg
  | Msg.str s => Msg.obj [("role", "user"), ("content", s)]
  | Msg.obj fields => Msg.obj fields

/-- The cache-hit test at ai.py:61-66.  Python's `if cached_response:`
is a truthiness test: a present but **empty** cache entry is falsy and
falls through to the service call. -/
def cacheHit (cached_mode : Bool) (cache_key : String) (cache : List (String × String)) :
    Option String :=
  match (if cached_mode then load_from_cache cache_key cache else none) with
  | some r => if r = "" then none else some r
  | none => none

def sysMsg : Msg :=
  Msg.obj [("role", "system"), ("content", "You are a helpful assistant.")]

instance exceptDecEq : DecidableEq (Except String String) := fun x y =>
  match x, y with
  | Except.ok a, Except.ok b =>
    if h : a = b then Decidable.isTrue (congrArg Except.ok h)
    else Decidable.isFalse (fun hh => h (Except.ok.inj hh))
  | Except.error a, Except.error b =>
    if h : a = b then Decidable.isTrue (congrArg Except.error h)
    else Decidable.isFalse (fun hh => h (Except.error.inj hh))
  | Except.ok _, Except.error _ => Decidable.isFalse (fun hh => Except.noConfusion hh)
  | Except.error _, Except.ok _ => Decidable.isFalse (fun hh => Except.noConfusion hh)

/-- Result of one `ask` call: the returned content (or the propagated
service failure), the cache store afterwards, and how many times the
external service was invoked during the call. -/
structure AskOutcome where
  result : Except String String
  cache : List (String × String)
  svcCalls : Nat
deriving DecidableEq, Repr

/-- `LLM.ask` (ai.py:41-84).  `svc` is the external service
(`client.chat.completions.create` + content extraction): it receives the
system message plus the normalized history, the model, `max_tokens` and
the structured-output flag, and either returns the response content or
fails.  The cache key is derived from the **raw** `chat_history`
argument (ai.py:59), before normalization. -/
def ask (svc : List Msg → String → Nat → Bool → Except String String)
    (cache : List (String × String)) (chat_history : List Msg) (model : String)
    (max_tokens : Nat) (json_mode : Bool) (cached_mode : Bool) : AskOutcome :=
  let history := chat_history.map normalizeMsg
  let cache_key := generate_cache_key chat_history model max_tokens json_mode
  match cacheHit cached_mode cache_key cache with
  | some cached_response => ⟨Except.ok cached_response, cache, 0⟩
  | none =>
    match svc (sysMsg :: history) model max_tokens json_mode with
    | Except.error e => ⟨Except.error e, cache, 1⟩
    | Except.ok result =>
      ⟨Except.ok result,
       if cached_mode then save_to_cache cache_key result cache else cache, 1⟩

/-! ## Lemmas about the dictionary / set primitives -/

theorem mem_sadd {x y : String} {s : List String} : x ∈ sadd y s ↔ x = y ∨ x ∈ s := by
  simp only [sadd]
  split
  · next h =>
    constructor
    · exact Or.inr
    · rintro (rfl | hx)
      · exact h
      · exact hx
  · simp [List.mem_append, or_comm]

theorem mem_sadd_of_mem {x y : String} {s : List String} (h : x ∈ s) : x ∈ sadd y s :=
  mem_sadd.mpr (Or.inr h)

theorem self_mem_sadd {y : String} {s : List String} : y ∈ sadd y s :=
  mem_sadd.mpr (Or.inl rfl)

theorem sadd_nodup {y : String} {s : List String} (h : s.Nodup) : (sadd y s).Nodup := by
  simp only [sadd]
  split
  · exact h
  · next hy => simp [List.nodup_append, h, hy]

theorem dictLookup_dictInsert {α : Type} (k k' : String) (v : α) (m : List (String × α)) :
    dictLookup k (dictInsert k' v m) = if k' = k then some v else dictLookup k m := by
  induction m with
  | nil => simp [dictInsert, dictLookup]
  | cons e rest ih =>
    obtain ⟨k₀, v₀⟩ := e
    simp only [dictInsert]
    by_cases h : k₀ = k'
    · subst h
      by_cases hk : k₀ = k <;> simp [dictLookup, hk]
    · rw [if_neg h]
      by_cases h₂ : k₀ = k
      · subst h₂
        have hk' : ¬(k' = k₀) := fun hh => h hh.symm
        simp [dictLookup, hk']
      · simp [dictLookup, h₂, ih]

theorem mem_dictInsert {α : Type} {e : String × α} {k : String} {v : α}
    {m : List (String × α)} (h : e ∈ dictInsert k v m) : e = (k, v) ∨ e ∈ m := by
  induction m with
  | nil => simpa [dictInsert] using h
  | cons e₀ rest ih =>
    obtain ⟨k₀, v₀⟩ := e₀
    simp only [dictInsert] at h
    split at h
    · next hk =>
      subst hk
      rcases List.mem_cons.mp h with rfl | hm
      · exact Or.inl rfl
      · exact Or.inr (List.mem_cons_of_mem _ hm)
    · rcases List.mem_cons.mp h with rfl | hm
      · exact Or.inr (List.mem_cons_self _ _)
      · rcases ih hm with h₁ | h₂
        · exact Or.inl h₁
        · exact Or.inr (List.mem_cons_of_mem _ h₂)

theorem keys_dictInsert {α : Type} (k : String) (v : α) (m : List (String × α)) :
    (dictInsert k v m).map Prod.fst =
      if k ∈ m.map Prod.fst then m.map Prod.fst else m.map Prod.fst ++ [k] := by
  induction m with
  | nil => simp [dictInsert]
  | cons e rest ih =>
    obtain ⟨k₀, v₀⟩ := e
    simp only [dictInsert]
    by_cases h : k₀ = k
    · subst h
      simp
    · have hne : ¬(k = k₀) := fun hh => h hh.symm
      by_cases h₂ : k ∈ rest.map Prod.fst <;> simp [h, h₂, ih, hne]

theorem keys_nodup_dictInsert {α : Type} {k : String} {v : α} {m : List (String × α)}
    (h : (m.map Prod.fst).Nodup) : ((dictInsert k v m).map Prod.fst).Nodup := by
  rw [keys_dictInsert]
  split
  · exact h
  · next hk => simp [List.nodup_append, h, hk]

theorem dictLookup_isSome_dictInsert {α : Type} {k : String} {m : List (String × α)}
    (k' : String) (v : α) (h : (dictLookup k m).isSome = true) :
    (dictLookup k (dictInsert k' v m)).isSome = true := by
  rw [dictLookup_dictInsert]
  split
  · rfl
  · exact h

/-! ## Lemmas about the dependency graph builder -/

theorem resolveDeps_inv (p2f : List (String × String)) (filename : String)
    (deps : List String) :
    filename ∉ resolveDeps p2f filename deps ∧
    (resolveDeps p2f filename deps).Nodup ∧
    ∀ d ∈ resolveDeps p2f filename deps, ∃ pkg, dictLookup pkg p2f = some d := by
  suffices aux : ∀ (ds : List String) (acc : List String),
      filename ∉ acc → acc.Nodup → (∀ d ∈ acc, ∃ pkg, dictLookup pkg p2f = some d) →
      filename ∉ ds.foldl
          (fun acc dep =>
            match dictLookup (depPackage dep) p2f with
            | some depFile => if depFile = filename then acc else sadd depFile acc
            | none => acc) acc ∧
        (ds.foldl
          (fun acc dep =>
            match dictLookup (depPackage dep) p2f with
            | some depFile => if depFile = filename then acc else sadd depFile acc
            | none => acc) acc).Nodup ∧
        ∀ d ∈ ds.foldl
          (fun acc dep =>
            match dictLookup (depPackage dep) p2f with
            | some depFile => if depFile = filename then acc else sadd depFile acc
            | none => acc) acc, ∃ pkg, dictLookup pkg p2f = some d by
    exact aux deps [] (by simp) (by simp) (by simp)
  intro ds
  induction ds with
  | nil => intro acc h₁ h₂ h₃; exact ⟨h₁, h₂, h₃⟩
  | cons dep rest ih =>
    intro acc h₁ h₂ h₃
    simp only [List.foldl_cons]
    cases heq : dictLookup (depPackage dep) p2f with
    | none => exact ih acc h₁ h₂ h₃
    | some depFile =>
      by_cases hdf : depFile = filename
      · simp only [hdf, if_pos rfl]
        exact ih acc h₁ h₂ h₃
      · simp only [if_neg hdf]
        refine ih (sadd depFile acc) ?_ (sadd_nodup h₂) ?_
        · intro hmem
          rcases mem_sadd.mp hmem with rfl | hmem₀
          · exact hdf rfl
          · exact h₁ hmem₀
        · intro d hd
          rcases mem_sadd.mp hd with rfl | hd₀
          · exact ⟨depPackage dep, heq⟩
          · exact h₃ d hd₀

theorem build_fold_entry (p2f : List (String × String)) (P : String → List String → Prop)
    (files : List (String × Refs)) (g₀ : List (String × List String))
    (h₀ : ∀ e ∈ g₀, P e.1 e.2)
    (hins : ∀ fr ∈ files, P (basename fr.1) (resolveDeps p2f (basename fr.1) fr.2.deps)) :
    ∀ e ∈ files.foldl
        (fun g fr => dictInsert (basename fr.1) (resolveDeps p2f (basename fr.1) fr.2.deps) g)
        g₀, P e.1 e.2 := by
  induction files generalizing g₀ with
  | nil => exact h₀
  | cons fr rest ih =>
    simp only [List.foldl_cons]
    refine ih _ ?_ (fun fr' h' => hins fr' (List.mem_cons_of_mem _ h'))
    intro e he
    rcases mem_dictInsert he with rfl | hmem
    · exact hins fr (List.mem_cons_self _ _)
    · exact h₀ e hmem

theorem build_fold_keys_nodup (p2f : List (String × String)) (files : List (String × Refs))
    (g₀ : List (String × List String)) (h₀ : (g₀.map Prod.fst).Nodup) :
    ((files.foldl
        (fun g fr => dictInsert (basename fr.1) (resolveDeps p2f (basename fr.1) fr.2.deps) g)
        g₀).map Prod.fst).Nodup := by
  induction files generalizing g₀ with
  | nil => exact h₀
  | cons fr rest ih =>
    simp only [List.foldl_cons]
    exact ih _ (keys_nodup_dictInsert h₀)

theorem build_fold_lookup_isSome (p2f : List (String × String)) (files : List (String × Refs))
    (g₀ : List (String × List String)) (k : String) (h₀ : (dictLookup k g₀).isSome = true) :
    (dictLookup k (files.foldl
        (fun g fr => dictInsert (basename fr.1) (resolveDeps p2f (basename fr.1) fr.2.deps) g)
        g₀)).isSome = true := by
  induction files generalizing g₀ with
  | nil => exact h₀
  | cons fr rest ih =>
    simp only [List.foldl_cons]
    exact ih _ (dictLookup_isSome_dictInsert _ _ h₀)

theorem build_fold_mem_isSome (p2f : List (String × String)) (files : List (String × Refs))
    (g₀ : List (String × List String)) (fr : String × Refs) (hfr : fr ∈ files) :
    (dictLookup (basename fr.1) (files.foldl
        (fun g fr => dictInsert (basename fr.1) (resolveDeps p2f (basename fr.1) fr.2.deps) g)
        g₀)).isSome = true := by
  induction files generalizing g₀ with
  | nil => cases hfr
  | cons fr₀ rest ih =>
    simp only [List.foldl_cons]
    rcases List.mem_cons.mp hfr with rfl | hmem
    · refine build_fold_lookup_isSome p2f rest _ _ ?_
      rw [dictLookup_dictInsert]
      simp
    · exact ih _ hmem

theorem pkgFold_lookup (v : String) (pkgs : List String) (m : List (String × String))
    (pkg : String) :
    dictLookup pkg (pkgs.foldl (fun m₀ p => dictInsert p v m₀) m) =
      if pkg ∈ pkgs then some v else dictLookup pkg m := by
  induction pkgs generalizing m with
  | nil => simp
  | cons p ps ih =>
    simp only [List.foldl_cons]
    rw [ih]
    by_cases h₁ : pkg ∈ ps
    · simp [h₁]
    · by_cases h₂ : p = pkg
      · subst h₂
        simp [h₁, dictLookup_dictInsert]
      · have : ¬(pkg = p) := fun hh => h₂ hh.symm
        simp [h₁, h₂, this, dictLookup_dictInsert]

theorem package2file_lookup (files : List (String × Refs)) (pkg : String) :
    dictLookup pkg (package2file files) = lastDeclaring files pkg := by
  suffices aux : ∀ (fs : List (String × Refs)) (m : List (String × String)),
      dictLookup pkg (fs.foldl
          (fun m fr => fr.2.package_name.foldl
            (fun m₀ p => dictInsert p (basename fr.1) m₀) m) m) =
        match lastDeclaring fs pkg with
        | some v => some v
        | none => dictLookup pkg m by
    have h := aux files []
    rw [package2file, h]
    cases hl : lastDeclaring files pkg <;> simp [dictLookup]
  intro fs
  induction fs with
  | nil => intro m; simp [lastDeclaring]
  | cons fr rest ih =>
    intro m
    simp only [List.foldl_cons]
    rw [ih]
    simp only [lastDeclaring]
    cases hl : lastDeclaring rest pkg with
    | some v => simp
    | none =>
      simp only
      rw [pkgFold_lookup]
      by_cases hmem : pkg ∈ fr.2.package_name <;> simp [hmem]

/-! ## Lemmas about the executor -/

theorem runProcessed_append (done : List String) (t₁ t₂ : List Event) :
    runProcessed done (t₁ ++ t₂) = runProcessed (runProcessed done t₁) t₂ := by
  induction t₁ generalizing done with
  | nil => rfl
  | cons e rest ih => cases e <;> simp only [List.cons_append, runProcessed] <;> exact ih _

theorem runProcessed_mem_mono {x : String} {done : List String} (t : List Event)
    (h : x ∈ done) : x ∈ runProcessed done t := by
  induction t generalizing done with
  | nil => exact h
  | cons e rest ih =>
    cases e <;> simp only [runProcessed] <;> first
      | exact ih h
      | exact ih (mem_sadd_of_mem h)

theorem traceOK_append (g : List (String × List String)) (done : List String)
    (t₁ t₂ : List Event) :
    traceOK g done (t₁ ++ t₂) =
      (traceOK g done t₁ && traceOK g (runProcessed done t₁) t₂) := by
  induction t₁ generalizing done with
  | nil => simp [traceOK, runProcessed]
  | cons e rest ih =>
    cases e <;>
      simp only [List.cons_append, traceOK, runProcessed, List.append_eq, ih, Bool.and_assoc]

/-- The state-evolution invariant of a successful executor step: the
trace is extended by a well-ordered segment whose processed-set replay
matches the new processed set, and the symbol list is extended on the
right. -/
def StepSound (g : List (String × List String)) (st st' : ProcState) : Prop :=
  (∃ t, st'.trace = st.trace ++ t ∧
        st'.processed = runProcessed st.processed t ∧
        traceOK g st.processed t = true) ∧
  ∃ u, st'.symbols = st.symbols ++ u

theorem StepSound.refl (g : List (String × List String)) (st : ProcState) :
    StepSound g st st :=
  ⟨⟨[], by simp, rfl, rfl⟩, ⟨[], by simp⟩⟩

theorem StepSound.trans {g : List (String × List String)} {st₁ st₂ st₃ : ProcState}
    (h₁ : StepSound g st₁ st₂) (h₂ : StepSound g st₂ st₃) : StepSound g st₁ st₃ := by
  obtain ⟨⟨t₁, ht₁, hp₁, hk₁⟩, ⟨u₁, hu₁⟩⟩ := h₁
  obtain ⟨⟨t₂, ht₂, hp₂, hk₂⟩, ⟨u₂, hu₂⟩⟩ := h₂
  refine ⟨⟨t₁ ++ t₂, ?_, ?_, ?_⟩, ⟨u₁ ++ u₂, ?_⟩⟩
  · rw [ht₂, ht₁, List.append_assoc]
  · rw [hp₂, hp₁, runProcessed_append]
  · rw [traceOK_append, hk₁, ← hp₁, hk₂]
    rfl
  · rw [hu₂, hu₁, List.append_assoc]

theorem StepSound.processed_mono {g : List (String × List String)} {st st' : ProcState}
    (h : StepSound g st st') {x : String} (hx : x ∈ st.processed) : x ∈ st'.processed := by
  obtain ⟨⟨t, _, hp, _⟩, _⟩ := h
  rw [hp]
  exact runProcessed_mem_mono t hx

theorem symFold_append (l : List Sym) (syms : List String) :
    ∃ u, l.foldl (fun acc s => sadd (symKey s) acc) syms = syms ++ u := by
  induction l generalizing syms with
  | nil => exact ⟨[], by simp⟩
  | cons s rest ih =>
    simp only [List.foldl_cons]
    obtain ⟨u, hu⟩ := ih (sadd (symKey s) syms)
    rw [hu]
    simp only [sadd]
    split
    · exact ⟨u, rfl⟩
    · exact ⟨[symKey s] ++ u, by simp⟩

theorem processList_sound {g : List (String × List String)}
    {step : ProcState → String → Option ProcState}
    (hstep : ∀ st f st', step st f = some st' → StepSound g st st' ∧ f ∈ st'.processed) :
    ∀ (fs : List String) (st st' : ProcState), processList step st fs = some st' →
      StepSound g st st' ∧ ∀ x ∈ fs, x ∈ st'.processed := by
  intro fs
  induction fs with
  | nil =>
    intro st st' h
    simp only [processList, Option.some.injEq] at h
    subst h
    exact ⟨StepSound.refl g st, by simp⟩
  | cons f rest ih =>
    intro st st' h
    simp only [processList] at h
    cases hf : step st f with
    | none => rw [hf] at h; cases h
    | some st₁ =>
      rw [hf] at h
      obtain ⟨hs₁, hf₁⟩ := hstep st f st₁ hf
      obtain ⟨hs₂, hall⟩ := ih st₁ st' h
      refine ⟨hs₁.trans hs₂, ?_⟩
      intro x hx
      rcases List.mem_cons.mp hx with rfl | hx₀
      · exact hs₂.processed_mono hf₁
      · exact hall x hx₀

theorem process_file_sound (wd : String) (g : List (String × List String))
    (readF : String → String) (gen : String → List String → String × List Sym) :
    ∀ (fuel : Nat) (st : ProcState) (f : String) (st' : ProcState),
      process_file wd g readF gen fuel st f = some st' →
      StepSound g st st' ∧ f ∈ st'.processed := by
  intro fuel
  induction fuel with
  | zero => intro st f st' h; cases h
  | succ n ih =>
    intro st f st' h
    simp only [process_file] at h
    by_cases hf : f ∈ st.processed
    · rw [if_pos hf] at h
      simp only [Option.some.injEq] at h
      subst h
      refine ⟨⟨⟨[Event.skip f], rfl, rfl, rfl⟩, ⟨[], by simp⟩⟩, hf⟩
    · rw [if_neg hf] at h
      cases hpl : processList (process_file wd g readF gen n) st ((dictLookup f g).getD []) with
      | none => rw [hpl] at h; cases h
      | some st₁ =>
        rw [hpl] at h
        simp only [Option.some.injEq] at h
        obtain ⟨hs₁, hdeps⟩ := processList_sound ih ((dictLookup f g).getD []) st st₁ hpl
        obtain ⟨u, hu⟩ := symFold_append
          (gen (readF (pathJoin wd f)) st₁.symbols).2 st₁.symbols
        have hs₂ : StepSound g st₁ st' := by
          subst h
          refine ⟨⟨[Event.readFile (pathJoin wd f), Event.transform f,
                     Event.markProcessed f, Event.save], rfl, rfl, ?_⟩, ⟨u, hu⟩⟩
          simp only [traceOK, Bool.and_true, List.all_eq_true, decide_eq_true_eq]
          intro d hd
          exact hdeps d hd
        refine ⟨hs₁.trans hs₂, ?_⟩
        subst h
        exact self_mem_sadd

/-- On a unit already in the processed set, `process_file` with positive
fuel is a pure skip (main.py:144-146). -/
theorem processList_skips (wd : String) (g : List (String × List String))
    (readF : String → String) (gen : String → List String → String × List Sym)
    (fuel : Nat) :
    ∀ (fs : List String) (st : ProcState), (∀ f ∈ fs, f ∈ st.processed) →
      processList (process_file wd g readF gen (fuel + 1)) st fs =
        some { st with trace := st.trace ++ fs.map Event.skip } := by
  intro fs
  induction fs with
  | nil =>
    intro st _
    simp [processList]
  | cons f rest ih =>
    intro st hall
    have hf : f ∈ st.processed := hall f (List.mem_cons_self _ _)
    have hstep : process_file wd g readF gen (fuel + 1) st f =
        some { st with trace := st.trace ++ [Event.skip f] } := by
      simp only [process_file, if_pos hf]
    simp only [processList, hstep]
    rw [ih { st with trace := st.trace ++ [Event.skip f] }
        (fun f' h' => hall f' (List.mem_cons_of_mem _ h'))]
    simp

/-! ## Lemmas about the cache key serialization -/

instance keyLeTotal : IsTotal (String × String) (fun a b => a.1 ≤ b.1) :=
  ⟨fun a b => le_total a.1 b.1⟩

instance keyLeTrans : IsTrans (String × String) (fun a b => a.1 ≤ b.1) :=
  ⟨fun _ _ _ h₁ h₂ => le_trans h₁ h₂⟩

instance keyLtAntisymm : IsAntisymm (String × String) (fun a b => a.1 < b.1) :=
  ⟨fun _ _ h₁ h₂ => absurd h₂ (lt_asymm h₁)⟩

/-- Two permuted item lists of the same flat dict (duplicate-free keys)
canonicalize to the same sorted list. -/
theorem sortByKey_eq_of_perm {l₁ l₂ : List (String × String)} (hp : l₁.Perm l₂)
    (hn : (l₁.map Prod.fst).Nodup) : sortByKey l₁ = sortByKey l₂ := by
  have hperm : (sortByKey l₁).Perm (sortByKey l₂) :=
    ((List.perm_insertionSort _ l₁).trans hp).trans (List.perm_insertionSort _ l₂).symm
  have hs₁ : List.Sorted (fun a b : String × String => a.1 ≤ b.1) (sortByKey l₁) :=
    List.sorted_insertionSort _ l₁
  have hs₂ : List.Sorted (fun a b : String × String => a.1 ≤ b.1) (sortByKey l₂) :=
    List.sorted_insertionSort _ l₂
  have hn₁ : ((sortByKey l₁).map Prod.fst).Nodup :=
    (((List.perm_insertionSort _ l₁).map Prod.fst).nodup_iff).mpr hn
  have hn₂ : ((sortByKey l₂).map Prod.fst).Nodup :=
    ((hperm.symm.map Prod.fst).nodup_iff).mpr hn₁
  have strict : ∀ (l : List (String × String)),
      List.Sorted (fun a b : String × String => a.1 ≤ b.1) l →
      (l.map Prod.fst).Nodup →
      List.Sorted (fun a b : String × String => a.1 < b.1) l := by
    intro l hs hnd
    have hne : l.Pairwise (fun a b : String × String => a.1 ≠ b.1) :=
      (List.pairwise_map).mp hnd
    exact (hs.and hne).imp (fun h => lt_of_le_of_ne h.1 h.2)
  exact List.eq_of_perm_of_sorted hperm (strict _ hs₁ hn₁) (strict _ hs₂ hn₂)

/-- Structural equality of messages: equal strings, or the same flat dict
up to field ordering. -/
inductive MsgEquiv : Msg → Msg → Prop where
  | str (s : String) : MsgEquiv (Msg.str s) (Msg.str s)
  | obj (l₁ l₂ : List (String × String)) (hp : l₁.Perm l₂)
      (hn : (l₁.map Prod.fst).Nodup) : MsgEquiv (Msg.obj l₁) (Msg.obj l₂)

theorem dumpMsg_eq_of_equiv {m₁ m₂ : Msg} (h : MsgEquiv m₁ m₂) :
    dumpMsg m₁ = dumpMsg m₂ := by
  cases h with
  | str s => rfl
  | obj l₁ l₂ hp hn => simp only [dumpMsg, sortByKey_eq_of_perm hp hn]

theorem dumpHistory_eq_of_equiv {ch₁ ch₂ : List Msg}
    (h : List.Forall₂ MsgEquiv ch₁ ch₂) : dumpHistory ch₁ = dumpHistory ch₂ := by
  have : ch₁.map dumpMsg = ch₂.map dumpMsg := by
    induction h with
    | nil => rfl
    | cons hm _ ih => simp only [List.map_cons, dumpMsg_eq_of_equiv hm, ih]
  simp only [dumpHistory, this]

/-! ## Concrete instances used by witnesses -/

def gW : List (String × List String) := [("b", ["a"]), ("a", [])]

def readFW : String → String := fun _ => "code"

def genW : String → List String → String × List Sym := fun _ _ => ("J", [⟨"o", "j"⟩])

def traceW : List Event :=
  [Event.readFile "w/a", Event.transform "a", Event.markProcessed "a", Event.save,
   Event.readFile "w/b", Event.transform "b", Event.markProcessed "b", Event.save,
   Event.skip "a"]

def stW : ProcState := ⟨["a", "b"], ["o -> j"], traceW⟩

/-! ## Claims -/

/-- C1: for every unit U with a dependency edge to D in the dependency
graph, in any execution trace produced to completion by
`process`/`process_all`, D enters the processed set strictly before U's
transformation step (the `generate_java_code` call) begins: along the
produced trace, at every `Event.transform U`, every graph dependency of U
is already in the processed set replayed up to that point (initial
processed units from a loaded progress record included).  This holds for
every trace the executor completes, hence in particular under the claim's
acyclicity precondition, which is what makes completion reachable. -/
theorem c1_dependency_order (wd : String) (g : List (String × List String))
    (readF : String → String) (gen : String → List String → String × List Sym)
    (fuel : Nat) (p₀ s₀ : List String) (st' : ProcState)
    (h : process wd g readF gen fuel ⟨p₀, s₀, []⟩ = some st') :
    traceOK g p₀ st'.trace = true := by
  rw [process] at h
  obtain ⟨⟨t, ht, _, hok⟩, -⟩ :=
    (processList_sound (process_file_sound wd g readF gen fuel) _ _ _ h).1
  simp only at ht
  rw [ht, List.nil_append]
  exact hok

theorem c1_dependency_order_witness : traceOK gW [] stW.trace = true :=
  c1_dependency_order "w" gW readFW genW 3 [] [] stW (by decide)

/-- C2: if `process_all` runs to completion from a fresh trace and the
progress record (processed set, symbols, graph) is persisted, then a
second run from the persisted state is a pure sequence of skips: it
performs zero transformation-service calls, never saves, and leaves the
processed set and symbol set — hence the persisted progress record —
unchanged; each `process` call on an already-processed unit is a no-op on
all state. -/
theorem c2_idempotent_resume (wd : String) (g : List (String × List String))
    (readF : String → String) (gen : String → List String → String × List Sym)
    (fuel fuel' : Nat) (p₀ s₀ : List String) (st₁ : ProcState)
    (h : process wd g readF gen fuel ⟨p₀, s₀, []⟩ = some st₁) :
    process wd g readF gen (fuel' + 1) ⟨st₁.processed, st₁.symbols, []⟩ =
      some ⟨st₁.processed, st₁.symbols, (g.map Prod.fst).map Event.skip⟩ := by
  rw [process] at h
  have hall := (processList_sound (process_file_sound wd g readF gen fuel) _ _ _ h).2
  rw [process]
  rw [processList_skips wd g readF gen fuel' (g.map Prod.fst)
      ⟨st₁.processed, st₁.symbols, []⟩ hall]
  simp

theorem c2_idempotent_resume_witness :
    process "w" gW readFW genW 1 ⟨stW.processed, stW.symbols, []⟩ =
      some ⟨stW.processed, stW.symbols, [Event.skip "b", Event.skip "a"]⟩ :=
  c2_idempotent_resume "w" gW readFW genW 3 0 [] [] stW (by decide)

/-- C8: across any sequence of successful unit completions
(`process_file` calls), the global symbol set only grows: every symbol
present before is present afterwards — the update at main.py:158-160 only
ever appends — so its size never decreases. -/
theorem c8_monotonic_symbols (wd : String) (g : List (String × List String))
    (readF : String → String) (gen : String → List String → String × List Sym)
    (fuel : Nat) (fs : List String) (st st' : ProcState)
    (h : processList (process_file wd g readF gen fuel) st fs = some st') :
    (∀ x ∈ st.symbols, x ∈ st'.symbols) ∧ st.symbols.length ≤ st'.symbols.length := by
  obtain ⟨⟨-, ⟨u, hu⟩⟩, -⟩ :=
    processList_sound (process_file_sound wd g readF gen fuel) fs st st' h
  rw [hu]
  exact ⟨fun x hx => List.mem_append_left u hx, by simp⟩

theorem c8_monotonic_symbols_witness :
    (∀ x ∈ ["s0"], x ∈ ["s0", "o -> j"]) ∧ ["s0"].length ≤ ["s0", "o -> j"].length :=
  c8_monotonic_symbols "w" gW readFW genW 3 ["b", "a"]
    ⟨[], ["s0"], []⟩ ⟨["a", "b"], ["s0", "o -> j"], traceW⟩ (by decide)

def filesW : List (String × Refs) :=
  [("a.sql", ⟨[], ["A"]⟩), ("b.sql", ⟨["A.f", "X.g"], ["B"]⟩)]

/-- C6: the graph built by `build_callgraph` contains no self-edges: no
unit appears in its own dependency list, even when it references a
package it itself declares — the guard at main.py:114 filters any edge
whose resolved target equals the unit's own basename. -/
theorem c6_no_self_edges (files : List (String × Refs)) (u : String) (ds : List String)
    (h : (u, ds) ∈ build_callgraph files) : u ∉ ds := by
  simp only [build_callgraph] at h
  exact build_fold_entry (package2file files) (fun k v => k ∉ v) files []
    (by simp) (fun fr _ => (resolveDeps_inv (package2file files) (basename fr.1) fr.2.deps).1)
    (u, ds) h

theorem c6_no_self_edges_witness : "b.sql" ∉ ["a.sql"] :=
  c6_no_self_edges filesW "b.sql" ["a.sql"] (by decide)

/-- C7: shape of the built graph.  Every scanned unit has an entry under
its basename (including units with no outgoing edges), entries are unique
per unit name, every edge list is duplicate-free, every edge target is
the image of some package under the package→unit map (so references whose
package resolves to no unit contribute no edge), and the package→unit
map records, for each package, the basename of the later-scanned
declaring unit (last write wins). -/
theorem c7_graph_shape (files : List (String × Refs)) :
    (∀ fr ∈ files, (dictLookup (basename fr.1) (build_callgraph files)).isSome = true) ∧
    ((build_callgraph files).map Prod.fst).Nodup ∧
    (∀ e ∈ build_callgraph files, e.2.Nodup ∧
      ∀ d ∈ e.2, ∃ pkg, dictLookup pkg (package2file files) = some d) ∧
    (∀ pkg, dictLookup pkg (package2file files) = lastDeclaring files pkg) := by
  refine ⟨?_, ?_, ?_, package2file_lookup files⟩
  · intro fr hfr
    simpa only [build_callgraph] using
      build_fold_mem_isSome (package2file files) files [] fr hfr
  · simpa only [build_callgraph] using
      build_fold_keys_nodup (package2file files) files [] (by simp)
  · intro e he
    simp only [build_callgraph] at he
    exact build_fold_entry (package2file files)
      (fun _ v => v.Nodup ∧ ∀ d ∈ v, ∃ pkg, dictLookup pkg (package2file files) = some d)
      files [] (by simp)
      (fun fr _ => ⟨(resolveDeps_inv (package2file files) (basename fr.1) fr.2.deps).2.1,
                    (resolveDeps_inv (package2file files) (basename fr.1) fr.2.deps).2.2⟩)
      e he

theorem c7_graph_shape_witness :
    (dictLookup (basename "a.sql") (build_callgraph filesW)).isSome = true ∧
    ((build_callgraph filesW).map Prod.fst).Nodup ∧
    (["a.sql"].Nodup ∧ ∀ d ∈ ["a.sql"], ∃ pkg, dictLookup pkg (package2file filesW) = some d) ∧
    dictLookup "A" (package2file filesW) = lastDeclaring filesW "A" :=
  ⟨(c7_graph_shape filesW).1 ("a.sql", ⟨[], ["A"]⟩) (by decide),
   (c7_graph_shape filesW).2.1,
   (c7_graph_shape filesW).2.2.1 ("b.sql", ["a.sql"]) (by decide),
   (c7_graph_shape filesW).2.2.2 "A"⟩

def files9a : List (String × Refs) :=
  [("a.sql", ⟨[], ["A"]⟩), ("sub/u.sql", ⟨["A.f"], ["P"]⟩), ("other/u.sql", ⟨[], ["Q"]⟩)]

def files9b : List (String × Refs) :=
  [("a.sql", ⟨[], ["A"]⟩), ("other/u.sql", ⟨[], ["Q"]⟩), ("sub/u.sql", ⟨["A.f"], ["P"]⟩)]

/-- C9: unit identity in the built graph is the file's basename, not its
path.  `sub/u.sql` and `other/u.sql` collapse into the single graph entry
`u.sql`, whose edges come from the later-scanned of the two (swapping
their scan order changes the entry's edges); and the executor reads a
unit discovered at `sub/u.sql` from `wd/u.sql` — the working-directory
root joined with the basename — not from `wd/sub/u.sql`. -/
theorem c9_basename_identity :
    build_callgraph files9a = [("a.sql", []), ("u.sql", [])] ∧
    build_callgraph files9b = [("a.sql", []), ("u.sql", ["a.sql"])] ∧
    process "wd" (build_callgraph [("sub/u.sql", ⟨[], ["P"]⟩)])
        (fun _ => "c") (fun _ _ => ("J", [])) 1 ⟨[], [], []⟩ =
      some ⟨["u.sql"], [],
        [Event.readFile "wd/u.sql", Event.transform "u.sql",
         Event.markProcessed "u.sql", Event.save]⟩ := by
  refine ⟨by decide, by decide, by decide⟩

def chC3 : List Msg := [Msg.str "q"]

def keyC3 : String := generate_cache_key chC3 "gpt-4o" 16384 false

def svcEmpty : List Msg → String → Nat → Bool → Except String String :=
  fun _ _ _ _ => Except.ok ""

def svcOkR : List Msg → String → Nat → Bool → Except String String :=
  fun _ _ _ _ => Except.ok "R"

/-- C3 counterexample: the claim "if a cache entry exists under the
derived key then `get_or_compute` returns the stored value without
invoking the external service, so two identical calls invoke the service
at most once" fails when the stored value is the empty string, because
`if cached_response:` (ai.py:63) tests Python truthiness, not presence.
With a service that returns `""`: a cache entry exists under the derived
key, yet the call invokes the service (conjuncts 1-2); and two identical
calls starting from an empty cache invoke the service once each — twice
in total (conjuncts 3-4). -/
theorem c3_counterexample :
    (load_from_cache keyC3 [(keyC3, "")]).isSome = true ∧
    (ask svcEmpty [(keyC3, "")] chC3 "gpt-4o" 16384 false true).svcCalls = 1 ∧
    (ask svcEmpty [] chC3 "gpt-4o" 16384 false true).svcCalls = 1 ∧
    (ask svcEmpty (ask svcEmpty [] chC3 "gpt-4o" 16384 false true).cache
        chC3 "gpt-4o" 16384 false true).svcCalls = 1 := by
  refine ⟨by decide, by decide, by decide, by decide⟩

/-- C3 (amended): if a cache entry exists under the derived key **with a
non-empty stored value**, `ask` returns it with zero service invocations
and an unchanged cache; consequently, when a first call returns a
non-empty result, an identical second call performs no service invocation
and returns output byte-identical to the first, leaving the cache as the
first call left it. -/
theorem c3_cache_correctness (svc : List Msg → String → Nat → Bool → Except String String)
    (cache : List (String × String)) (ch : List Msg) (model : String) (mt : Nat)
    (jm : Bool) :
    (∀ v, load_from_cache (generate_cache_key ch model mt jm) cache = some v → v ≠ "" →
      ask svc cache ch model mt jm true = ⟨Except.ok v, cache, 0⟩) ∧
    (∀ res, (ask svc cache ch model mt jm true).result = Except.ok res → res ≠ "" →
      ask svc (ask svc cache ch model mt jm true).cache ch model mt jm true =
        ⟨Except.ok res, (ask svc cache ch model mt jm true).cache, 0⟩) := by
  constructor
  · intro v hv hne
    simp only [ask, cacheHit, hv, if_true, if_neg hne]
  · intro res hres hne
    cases hcache : cacheHit true (generate_cache_key ch model mt jm) cache with
    | some r =>
      have h₁ : ask svc cache ch model mt jm true = ⟨Except.ok r, cache, 0⟩ := by
        simp only [ask, hcache]
      rw [h₁] at hres ⊢
      simp only at hres
      cases hres
      simp only [ask, hcache]
    | none =>
      cases hsvc : svc (sysMsg :: ch.map normalizeMsg) model mt jm with
      | error e =>
        have h₁ : ask svc cache ch model mt jm true = ⟨Except.error e, cache, 1⟩ := by
          simp only [ask, hcache, hsvc]
        rw [h₁] at hres
        simp only at hres
        cases hres
      | ok result =>
        have h₁ : ask svc cache ch model mt jm true =
            ⟨Except.ok result,
             save_to_cache (generate_cache_key ch model mt jm) result cache, 1⟩ := by
          simp only [ask, hcache, hsvc, if_true]
        rw [h₁] at hres ⊢
        simp only at hres
        cases hres
        have hload : load_from_cache (generate_cache_key ch model mt jm)
            (save_to_cache (generate_cache_key ch model mt jm) res cache) = some res := by
          simp [load_from_cache, save_to_cache, dictLookup_dictInsert]
        simp only [ask, cacheHit, hload, if_true, if_neg hne]

theorem c3_cache_correctness_witness :
    ask svcOkR [(keyC3, "R")] chC3 "gpt-4o" 16384 false true =
      ⟨Except.ok "R", [(keyC3, "R")], 0⟩ ∧
    ask svcOkR (ask svcOkR [] chC3 "gpt-4o" 16384 false true).cache
        chC3 "gpt-4o" 16384 false true =
      ⟨Except.ok "R", (ask svcOkR [] chC3 "gpt-4o" 16384 false true).cache, 0⟩ :=
  ⟨(c3_cache_correctness svcOkR [(keyC3, "R")] chC3 "gpt-4o" 16384 false).1
      "R" (by decide) (by decide),
   (c3_cache_correctness svcOkR [] chC3 "gpt-4o" 16384 false).2
      "R" (by decide) (by decide)⟩

/-- C4: the cache key is a deterministic function of the request's
semantic content: two chat histories whose messages are pairwise
structurally equal (equal strings, or equal flat dicts up to field
ordering), with the same model, max-token limit and structured-output
flag, serialize to the same canonical `key_data` — `json.dumps(...,
sort_keys=True)` sorts every dict's items — and therefore hash to the
identical cache key. -/
theorem c4_cache_key_deterministic (ch₁ ch₂ : List Msg) (model : String) (mt : Nat)
    (jm : Bool) (h : List.Forall₂ MsgEquiv ch₁ ch₂) :
    generate_cache_key ch₁ model mt jm = generate_cache_key ch₂ model mt jm := by
  simp only [generate_cache_key, dumpHistory_eq_of_equiv h]

theorem c4_cache_key_deterministic_witness :
    generate_cache_key [Msg.obj [("role", "user"), ("content", "hi")]] "gpt-4o" 16384 true =
      generate_cache_key [Msg.obj [("content", "hi"), ("role", "user")]] "gpt-4o" 16384 true :=
  c4_cache_key_deterministic _ _ _ _ _
    (List.Forall₂.cons (MsgEquiv.obj _ _ (by decide) (by decide)) List.Forall₂.nil)

def svcBoom : List Msg → String → Nat → Bool → Except String String :=
  fun _ _ _ _ => Except.error "boom"

/-- C5: if the external service call fails, the failure propagates to the
caller of `ask` with no cache write: the cache store is returned exactly
as it was before the call, and exactly one (non-retried) service
invocation was attempted.  The hypothesis `cacheHit ... = none` states
that the call reaches the service at all (no usable cache hit). -/
theorem c5_error_propagation (svc : List Msg → String → Nat → Bool → Except String String)
    (cache : List (String × String)) (ch : List Msg) (model : String) (mt : Nat)
    (jm cm : Bool) (e : String)
    (hmiss : cacheHit cm (generate_cache_key ch model mt jm) cache = none)
    (herr : svc (sysMsg :: ch.map normalizeMsg) model mt jm = Except.error e) :
    ask svc cache ch model mt jm cm = ⟨Except.error e, cache, 1⟩ := by
  simp only [ask, hmiss, herr]

theorem c5_error_propagation_witness :
    ask svcBoom [] chC3 "gpt-4o" 16384 false true = ⟨Except.error "boom", [], 1⟩ :=
  c5_error_propagation svcBoom [] chC3 "gpt-4o" 16384 false true "boom"
    (by decide) (by decide)

/-- C10: the cache key is derived from the raw `chat_history` argument
before role normalization (ai.py:59 uses `chat_history`, not `history`):
the plain string `"hello"` and its normalized form
`{"role": "user", "content": "hello"}` normalize to the same request —
so the service receives identical input — yet their derived keys differ,
and the second call misses the cache entry written by the first (each of
the two calls invokes the service once). -/
theorem c10_raw_history_keying :
    [Msg.str "hello"].map normalizeMsg =
      [Msg.obj [("role", "user"), ("content", "hello")]].map normalizeMsg ∧
    generate_cache_key [Msg.str "hello"] "gpt-4o" 16384 false ≠
      generate_cache_key [Msg.obj [("role", "user"), ("content", "hello")]]
        "gpt-4o" 16384 false ∧
    (ask svcOkR [] [Msg.str "hello"] "gpt-4o" 16384 false true).svcCalls = 1 ∧
    (ask svcOkR (ask svcOkR [] [Msg.str "hello"] "gpt-4o" 16384 false true).cache
        [Msg.obj [("role", "user"), ("content", "hello")]]
        "gpt-4o" 16384 false true).svcCalls = 1 := by
  refine ⟨by decide, by decide, by decide, by decide⟩

end S2J
